import Mathlib

/-!
Verification of the validation core of the Excel-Validator backend
(`backend/app/services/excel_service.py`) against its specification.

The embedding models Python cell values as a tagged union `Value`:
`None`, `bool`, `int`, `float` (a float is NaN, a signed infinity, or an
exactly represented finite value, modelled as a rational), `str`
(a Lean `String`, whose `data` field is its character list), and
`pd.Timestamp` (carried as an opaque ISO string).  Python dictionaries
are modelled as association lists in insertion order; `dict.get` is the
first matching entry.  The two external text parsers used by the source
(`float(s)` and `pd.to_datetime(s, errors="coerce")`) and the textual
rendering of floats and timestamps by `str(...)` are opaque to the
validation logic, so they are passed in as an explicit `Ext` record and
all theorems quantify over them.
-/

namespace ExcelValidator

/-- Model of a Python `float`: NaN, a signed infinity, or a finite value
represented exactly as a rational number. -/
inductive FloatVal where
  | nan : FloatVal
  | infty (neg : Bool) : FloatVal
  | finite (q : ℚ) : FloatVal
deriving DecidableEq

/-- Model of a Python cell value as found in `row["values"]`. -/
inductive Value where
  | pynone : Value
  | bool (b : Bool) : Value
  | int (n : ℤ) : Value
  | float (f : FloatVal) : Value
  | str (s : String) : Value
  | timestamp (t : String) : Value
deriving DecidableEq

/-- The external collaborators of the validation core: the verdicts of the
two text parsers the source calls, and the text rendering used by the
f-string in `validate_rows`.  `floatParse s` is true when Python
`float(s)` succeeds; `dateParse s` is the verdict of
`pd.to_datetime(s, errors="coerce")` not being NaT. -/
structure Ext where
  floatParse : String → Bool
  dateParse : String → Bool
  showFloat : FloatVal → String
  showTimestamp : String → String

/-- `TYPE_PRIORITY` from the source. -/
def TYPE_PRIORITY : List String := ["integer", "float", "boolean", "date", "string"]

/-- Python `str.strip()` on a character list: drop whitespace from both ends. -/
def stripChars (l : List Char) : List Char :=
  ((l.dropWhile Char.isWhitespace).reverse.dropWhile Char.isWhitespace).reverse

/-- Python `str.strip()`. -/
def pyStrip (s : String) : String := ⟨stripChars s.data⟩

/-- Python `str.lower()` (ASCII case folding suffices for the values used). -/
def pyLower (s : String) : String := ⟨s.data.map Char.toLower⟩

/-- Python `str.isdigit()`: nonempty and all characters are digits. -/
def pyIsDigitL (l : List Char) : Bool := !l.isEmpty && l.all Char.isDigit

/-- `_is_null` from the source: `None`, a whitespace-only string, or a
float NaN. -/
def isNull : Value → Bool
  | .pynone => true
  | .str s => (stripChars s.data).isEmpty
  | .float f => match f with | .nan => true | _ => false
  | _ => false

/-- `float.is_integer()`: true exactly for finite floats with zero
fractional part. -/
def FloatVal.isInteger : FloatVal → Bool
  | .finite q => q.den == 1
  | _ => false

/-- `_looks_like_int` from the source.  The string branch strips the text,
then tests `isdigit` after an optional leading minus sign. -/
def looksLikeInt : Value → Bool
  | .bool _ => false
  | .int _ => true
  | .float f => f.isInteger
  | .str s =>
    match stripChars s.data with
    | c :: rest => if c = '-' then pyIsDigitL rest else pyIsDigitL (c :: rest)
    | [] => pyIsDigitL []
  | _ => false

/-- `_looks_like_float` from the source.  The string branch is the verdict
of Python `float(s)`. -/
def looksLikeFloat (E : Ext) : Value → Bool
  | .bool _ => false
  | .int _ => true
  | .float _ => true
  | .str s => E.floatParse s
  | _ => false

/-- `_looks_like_bool` from the source. -/
def looksLikeBool : Value → Bool
  | .bool _ => true
  | .str s => ["true", "false", "yes", "no", "0", "1"].contains (pyLower (pyStrip s))
  | .int n => n == 0 || n == 1
  | .float f => match f with | .finite q => q == 0 || q == 1 | _ => false
  | _ => false

/-- `_looks_like_date` from the source: a native timestamp, or a non-blank
string accepted by the date parser. -/
def looksLikeDate (E : Ext) : Value → Bool
  | .timestamp _ => true
  | .str s => if (stripChars s.data).isEmpty then false else E.dateParse s
  | _ => false

/-- `_is_valid` from the source: unknown expected types degrade to
"string"; null always passes; "string" always passes; otherwise delegate
to the matching compatibility predicate. -/
def isValid (E : Ext) (value : Value) (expectedType : String) : Bool :=
  let t := if TYPE_PRIORITY.contains expectedType then expectedType else "string"
  if isNull value then true
  else if t == "string" then true
  else if t == "integer" then looksLikeInt value
  else if t == "float" then looksLikeFloat E value
  else if t == "boolean" then looksLikeBool value
  else if t == "date" then looksLikeDate E value
  else true

/-- `_normalize_type` from the source: lower-case the override and keep it
only when it is one of the five allowed tags. -/
def normalizeType : Option String → Option String
  | none => none
  | some v =>
    let normalized := pyLower v
    if TYPE_PRIORITY.contains normalized then some normalized else none

/-- `_coerce_duplicate_value` from the source: strings are stripped and
lower-cased, float NaN becomes the null marker, all else is unchanged. -/
def coerceDuplicateValue : Value → Value
  | .str s => .str (pyLower (pyStrip s))
  | .float .nan => .pynone
  | v => v

/-- The per-tag counters of `detect_column_type`. -/
structure Scores where
  integer : ℕ
  float : ℕ
  boolean : ℕ
  date : ℕ
  string : ℕ
deriving DecidableEq

/-- Read a counter by tag name, as `scores[type_name]` does. -/
def Scores.get (s : Scores) (t : String) : ℕ :=
  if t = "integer" then s.integer
  else if t = "float" then s.float
  else if t = "boolean" then s.boolean
  else if t = "date" then s.date
  else if t = "string" then s.string
  else 0

/-- One iteration of the scoring loop of `detect_column_type`: skip nulls,
otherwise bump the first matching tag in the fixed test order. -/
def bumpScore (E : Ext) (s : Scores) (v : Value) : Scores :=
  if isNull v then s
  else if looksLikeInt v then { s with integer := s.integer + 1 }
  else if looksLikeFloat E v then { s with float := s.float + 1 }
  else if looksLikeBool v then { s with boolean := s.boolean + 1 }
  else if looksLikeDate E v then { s with date := s.date + 1 }
  else { s with string := s.string + 1 }

/-- The scoring loop of `detect_column_type`. -/
def computeScores (E : Ext) (values : List Value) : Scores :=
  values.foldl (bumpScore E) ⟨0, 0, 0, 0, 0⟩

/-- `TYPE_PRIORITY.index`, as an integer so it can be negated. -/
def priorityIndex (t : String) : ℤ := (TYPE_PRIORITY.indexOf t : ℤ)

/-- Strict lexicographic comparison of the `(score, -index)` key pairs
used by the `max(..., key=...)` call. -/
def pairGt (a b : ℕ × ℤ) : Bool := decide (b.1 < a.1 ∨ (a.1 = b.1 ∧ b.2 < a.2))

/-- Python `max(xs, key=k)`: scan left to right, replacing the current
best only on a strictly greater key (so the first maximum wins). -/
def pyMax (key : String → ℕ × ℤ) : List String → String
  | [] => ""
  | x :: rest => rest.foldl (fun best t => if pairGt (key t) (key best) then t else best) x

/-- `detect_column_type` from the source. -/
def detectColumnType (E : Ext) (values : List Value) : String :=
  let scores := computeScores E values
  let best := pyMax (fun t => (scores.get t, -priorityIndex t)) TYPE_PRIORITY
  if scores.get best == 0 then "string" else best

/-- A row: `{"rowId": ..., "values": {...}}`.  The values dictionary is an
association list in insertion order. -/
structure Row where
  rowId : ℤ
  values : List (String × Value)
deriving DecidableEq

/-- Python `dict.get(k)`: the first entry with the given key, if any. -/
def dictGet {α : Type} (d : List (String × α)) (k : String) : Option α :=
  (d.find? (fun p => p.1 == k)).map (fun p => p.2)

/-- Python `dict.get(k, default)`. -/
def dictGetD {α : Type} (d : List (String × α)) (k : String) (dflt : α) : α :=
  (dictGet d k).getD dflt

/-- `row["values"].get(column)`: `None` when the column is absent. -/
def getValue (r : Row) (c : String) : Value := (dictGet r.values c).getD .pynone

/-- A cell error entry, as appended by `validate_rows`. -/
structure CellError where
  rowId : ℤ
  column : String
  expectedType : String
  actualValue : Value
  message : String
deriving DecidableEq

/-- A single-quote character, used by the error message f-string. -/
def sq : String := String.singleton '\x27'

/-- Python `str(value)` for the value domain; floats and timestamps render
through the external record. -/
def pyStr (E : Ext) : Value → String
  | .pynone => "None"
  | .bool b => if b then "True" else "False"
  | .int n => toString n
  | .float f => E.showFloat f
  | .str s => s
  | .timestamp t => E.showTimestamp t

/-- The f-string `f"Expected {expected_type}, received '{value}'"`. -/
def cellMessage (E : Ext) (expectedType : String) (value : Value) : String :=
  "Expected " ++ expectedType ++ ", received " ++ sq ++ pyStr E value ++ sq

/-- The error record built by `validate_rows` for one failing cell. -/
def mkCellError (E : Ext) (rowId : ℤ) (column expectedType : String) (value : Value) :
    CellError :=
  ⟨rowId, column, expectedType, value, cellMessage E expectedType value⟩

/-- The duplicate key of one row: the coerced values of the given columns,
in order (`identify_duplicates`). -/
def dupKey (cols : List String) (r : Row) : List Value :=
  cols.map (fun c => coerceDuplicateValue (getValue r c))

/-- The canonical form deciding Python `==` on the value domain: numeric
values (bools, ints and finite floats) compare by magnitude, NaN compares
equal to nothing (`none`), everything else compares within its own tag. -/
inductive CanonV where
  | none : CanonV
  | num (q : ℚ) : CanonV
  | infty (neg : Bool) : CanonV
  | str (s : String) : CanonV
  | ts (t : String) : CanonV
deriving DecidableEq

/-- Canonical form of a value under Python `==`; `Option.none` marks NaN,
which is equal to nothing (not even itself). -/
def canonKey : Value → Option CanonV
  | .pynone => some .none
  | .bool b => some (.num (if b then 1 else 0))
  | .int n => some (.num (n : ℚ))
  | .float .nan => none
  | .float (.infty b) => some (.infty b)
  | .float (.finite q) => some (.num q)
  | .str s => some (.str s)
  | .timestamp t => some (.ts t)

/-- Python `==` on two cell values. -/
def pyEqV (a b : Value) : Bool :=
  match canonKey a, canonKey b with
  | some x, some y => decide (x = y)
  | _, _ => false

/-- Python `==` on two key tuples: pointwise, same length. -/
def pyEqKey : List Value → List Value → Bool
  | [], [] => true
  | a :: as, b :: bs => pyEqV a b && pyEqKey as bs
  | _, _ => false

/-- `seen.setdefault(key, []).append(row_id)` on the association-list model
of the dict: append to the first entry with an equal key, or add a new
entry at the end. -/
def insertSeen : List (List Value × List ℤ) → List Value → ℤ → List (List Value × List ℤ)
  | [], k, rid => [(k, [rid])]
  | (k0, g) :: rest, k, rid =>
    if pyEqKey k0 k then (k0, g ++ [rid]) :: rest
    else (k0, g) :: insertSeen rest k rid

/-- `identify_duplicates` from the source. -/
def identifyDuplicates (rows : List Row) (cols : List String) : List (List ℤ) :=
  let seen := rows.foldl (fun seen r => insertSeen seen (dupKey cols r) r.rowId) []
  (seen.map (fun p => p.2)).filter (fun g => decide (1 < g.length))

/-- `validate_rows` from the source: scan every row against every entry of
the expected-types dictionary, appending an error per failing cell, then
detect duplicates over the full column list of that dictionary. -/
def validateRows (E : Ext) (rows : List Row) (expectedTypes : List (String × String)) :
    List CellError × List (List ℤ) :=
  let errors := rows.foldl (fun acc row =>
    expectedTypes.foldl (fun acc2 p =>
      let value := getValue row p.1
      if isValid E value p.2 then acc2
      else acc2 ++ [mkCellError E row.rowId p.1 p.2 value]) acc) []
  (errors, identifyDuplicates rows (expectedTypes.map (fun p => p.1)))

/-- One entry of `session.column_info`.  `detectedType` is always a string
in the source (possibly empty); `overrideType` may be absent. -/
structure ColumnInfo where
  name : String
  detectedType : String
  overrideType : Option String
  nullable : Bool
deriving DecidableEq

/-- The session fields touched by the validation core. -/
structure SessionData where
  rows : List Row
  columns : List String
  detectedTypes : List (String × String)
  columnInfo : List ColumnInfo
  errors : List CellError
  duplicateGroups : List (List ℤ)
  overrides : List (String × Option String)
  sheetName : String
  sheetNames : List String
deriving DecidableEq

/-- Python string truthiness on an optional string: absent and empty are
both falsy. -/
def truthyOS : Option String → Bool
  | none => false
  | some s => !s.isEmpty

/-- Python `a or b` on optional strings. -/
def pyOrOS (a b : Option String) : Option String := if truthyOS a then a else b

/-- Python `a or b` where `a` is a plain string. -/
def pyOrS (a b : String) : String := if a.isEmpty then b else a

/-- The `if column_info_payload:` branch of `revalidate`: a non-empty
replacement column list rebuilds the column metadata and the column order;
anything falsy leaves the session unchanged. -/
def applyColumnPayload (session : SessionData) : Option (List ColumnInfo) → SessionData
  | some (c :: cs) =>
    let ci := (c :: cs).map (fun col =>
      { name := col.name
        detectedType := pyOrS col.detectedType (dictGetD session.detectedTypes col.name "string")
        overrideType := col.overrideType
        nullable := col.nullable })
    { session with columnInfo := ci, columns := ci.map (fun col => col.name) }
  | _ => session

/-- The body of the per-column loop of `revalidate`: compute the override
in effect, store it on the column when truthy, and record the effective
expected type for the column. -/
def revalStep (coerced : List (String × Option String)) (detTypes : List (String × String))
    (col : ColumnInfo) : ColumnInfo × (String × String) :=
  let overrideType := pyOrOS (Option.join (dictGet coerced col.name)) col.overrideType
  let col2 := if truthyOS overrideType then { col with overrideType := overrideType } else col
  let detectedType := pyOrS col.detectedType (dictGetD detTypes col.name "string")
  let expected := (pyOrOS (pyOrOS overrideType (some detectedType)) (some "string")).getD "string"
  (col2, (col.name, expected))

/-- `revalidate` from the source, returning the updated session (the
response payload mirrors the stored fields). -/
def revalidate (E : Ext) (session0 : SessionData) (rows : List Row)
    (overrides : List (String × Option String)) (columnInfoPayload : Option (List ColumnInfo)) :
    SessionData :=
  let session := applyColumnPayload session0 columnInfoPayload
  let coerced := (overrides.filter (fun p => session.columns.contains p.1)).map
    (fun p => (p.1, normalizeType p.2))
  let pairs := session.columnInfo.map (revalStep coerced session.detectedTypes)
  let columnInfo := pairs.map (fun p => p.1)
  let expectedTypes := pairs.map (fun p => p.2)
  let result := validateRows E rows expectedTypes
  { session with
    columnInfo := columnInfo
    rows := rows
    overrides := coerced
    errors := result.1
    duplicateGroups := result.2
    detectedTypes := expectedTypes }

/-- The renumbering loop of `remove_rows`: assign `rowId := idx` along the
remaining rows. -/
def renumber : ℕ → List Row → List Row
  | _, [] => []
  | i, r :: rs => { r with rowId := (i : ℤ) } :: renumber (i + 1) rs

/-- `remove_rows` from the source: drop the removal set, renumber densely
from 0, store and return the filtered rows. -/
def removeRows (session : SessionData) (rowIds : List ℤ) : SessionData × List Row :=
  let filtered := renumber 0 (session.rows.filter (fun r => !rowIds.contains r.rowId))
  ({ session with rows := filtered }, filtered)

/-- The duplicate-removal endpoint flow: `remove_rows` followed by
`revalidate` on the filtered rows with the session overrides and no
column payload. -/
def removeAndRevalidate (E : Ext) (session : SessionData) (rowIds : List ℤ) :
    SessionData × List Row :=
  let step := removeRows session rowIds
  (revalidate E step.1 step.2 step.1.overrides none, step.2)

/-- The most specific tag a non-null value is compatible with: the first
predicate in the fixed order integer, float, boolean, date that accepts
it, with "string" as the fallback.  This is the tag whose counter the
scoring loop bumps for the value. -/
def tagOfValue (E : Ext) (v : Value) : String :=
  if looksLikeInt v then "integer"
  else if looksLikeFloat E v then "float"
  else if looksLikeBool v then "boolean"
  else if looksLikeDate E v then "date"
  else "string"

/-- First-seen deduplication of a key list under Python equality. -/
def dedupKeys : List (List Value) → List (List Value)
  | [] => []
  | k :: ks => k :: (dedupKeys ks).filter (fun k2 => !pyEqKey k2 k)

/-- Modelled on the wording of the Duplicate Detector contract in the
spec: key each row on its normalized value tuple, group row identifiers
by equal key preserving first-seen row order within each group, and emit
only groups of two or more members, in the order each key was first
encountered. -/
def findDuplicatesSpec (rows : List Row) (cols : List String) : List (List ℤ) :=
  ((dedupKeys (rows.map (dupKey cols))).map
    (fun k => (rows.filter (fun r => pyEqKey (dupKey cols r) k)).map (fun r => r.rowId))).filter
    (fun g => decide (2 ≤ g.length))

/-- One entry of the dictionary of `identify_duplicates`, described
directly: a stored key together with the identifiers of the rows whose
key equals it, in row order. -/
def seenEntry (cols : List String) (rows : List Row) (k : List Value) : List Value × List ℤ :=
  (k, (rows.filter (fun r => pyEqKey (dupKey cols r) k)).map (fun r => r.rowId))

/-- The intermediate dictionary of `identify_duplicates`, described
directly: one entry per first-seen key. -/
def seenSpec (cols : List String) (rows : List Row) : List (List Value × List ℤ) :=
  (dedupKeys (rows.map (dupKey cols))).map (seenEntry cols rows)

/-- A key tuple that contains no NaN, so Python equality is reflexive on
it.  Every key built by the Duplicate Detector is of this form, because
the coercion replaces NaN by the null marker. -/
def goodKey (k : List Value) : Prop := ∀ v ∈ k, (canonKey v).isSome = true

/-- A concrete external record used to instantiate witnesses: both text
parsers reject everything and floats render as the empty string.  (No
witness below ever reaches these functions.) -/
def extNone : Ext := ⟨fun _ => false, fun _ => false, fun _ => "", fun t => t⟩

/-- A two-row session used by concrete witnesses: one text column "Age"
detected as integer, with the same invalid value in both rows. -/
def sampleSession : SessionData :=
  { rows := [⟨0, [("Age", .str "abc")]⟩, ⟨1, [("Age", .str "abc")]⟩]
    columns := ["Age"]
    detectedTypes := [("Age", "integer")]
    columnInfo := [⟨"Age", "integer", none, true⟩]
    errors := []
    duplicateGroups := []
    overrides := []
    sheetName := "Sheet1"
    sheetNames := ["Sheet1"] }

/-- A three-row session used by the row-removal scenario. -/
def sampleSession3 : SessionData :=
  { rows := [⟨0, [("A", .int 10)]⟩, ⟨1, [("A", .int 20)]⟩, ⟨2, [("A", .int 30)]⟩]
    columns := ["A"]
    detectedTypes := [("A", "integer")]
    columnInfo := [⟨"A", "integer", none, true⟩]
    errors := []
    duplicateGroups := []
    overrides := []
    sheetName := "Sheet1"
    sheetNames := ["Sheet1"] }

/-! ### Character and string facts -/

lemma digit_char_facts (c : Char) (h : c.isDigit = true) :
    c.isWhitespace = false ∧ c ≠ '-' := by
  simp only [Char.isDigit, decide_eq_true_eq, Bool.and_eq_true] at h
  have hlo : 48 ≤ c.val.toNat := UInt32.le_toNat_of_le (by norm_num [UInt32.size]) h.1
  constructor
  · simp only [Char.isWhitespace, Bool.or_eq_false_iff, decide_eq_false_iff_not, Char.ext_iff,
      UInt32.ext_iff]
    refine ⟨⟨⟨?_, ?_⟩, ?_⟩, ?_⟩ <;> intro hc <;> rw [hc] at hlo <;> exact absurd hlo (by decide)
  · simp only [ne_eq, Char.ext_iff, UInt32.ext_iff]
    intro hc
    rw [hc] at hlo
    exact absurd hlo (by decide)

lemma dropWhile_ws_eq_self (l : List Char) (h : ∀ c ∈ l, c.isWhitespace = false) :
    l.dropWhile Char.isWhitespace = l := by
  cases l with
  | nil => rfl
  | cons c cs => rw [List.dropWhile_cons_of_neg] ; simp [h c (by simp)]

lemma stripChars_eq_self (l : List Char) (h : ∀ c ∈ l, c.isWhitespace = false) :
    stripChars l = l := by
  unfold stripChars
  rw [dropWhile_ws_eq_self l h, dropWhile_ws_eq_self, List.reverse_reverse]
  intro c hc
  exact h c (List.mem_reverse.mp hc)

lemma stripChars_digits (l : List Char) (h : ∀ c ∈ l, c.isDigit = true) :
    stripChars l = l :=
  stripChars_eq_self l (fun c hc => (digit_char_facts c (h c hc)).1)

/-! ### The error list of `validate_rows` as a flat map -/

lemma validateRows_inner (E : Ext) (row : Row) (et : List (String × String))
    (acc : List CellError) :
    et.foldl (fun acc2 p =>
      let value := getValue row p.1
      if isValid E value p.2 then acc2
      else acc2 ++ [mkCellError E row.rowId p.1 p.2 value]) acc
    = acc ++ et.filterMap (fun p =>
        if isValid E (getValue row p.1) p.2 then none
        else some (mkCellError E row.rowId p.1 p.2 (getValue row p.1))) := by
  induction et generalizing acc with
  | nil => simp
  | cons p ps ih =>
    by_cases h : isValid E (getValue row p.1) p.2 = true
    · simp [h, ih]
    · simp only [Bool.not_eq_true] at h
      simp [h, ih]

lemma validateRows_errors_aux (E : Ext) (et : List (String × String)) :
    ∀ (rows : List Row) (acc : List CellError),
    rows.foldl (fun acc row => et.foldl (fun acc2 p =>
      let value := getValue row p.1
      if isValid E value p.2 then acc2
      else acc2 ++ [mkCellError E row.rowId p.1 p.2 value]) acc) acc
    = acc ++ rows.flatMap (fun row => et.filterMap (fun p =>
        if isValid E (getValue row p.1) p.2 then none
        else some (mkCellError E row.rowId p.1 p.2 (getValue row p.1))))
  | [], acc => by simp
  | row :: rows, acc => by
    simp only [List.foldl_cons, List.flatMap_cons]
    rw [validateRows_inner, validateRows_errors_aux E et rows, List.append_assoc]

lemma validateRows_fst (E : Ext) (rows : List Row) (et : List (String × String)) :
    (validateRows E rows et).1
    = rows.flatMap (fun row => et.filterMap (fun p =>
        if isValid E (getValue row p.1) p.2 then none
        else some (mkCellError E row.rowId p.1 p.2 (getValue row p.1)))) := by
  simpa using validateRows_errors_aux E et rows []

lemma validateRows_error_rowId (E : Ext) (rows : List Row) (et : List (String × String))
    (e : CellError) (he : e ∈ (validateRows E rows et).1) :
    ∃ r ∈ rows, e.rowId = r.rowId := by
  rw [validateRows_fst] at he
  rw [List.mem_flatMap] at he
  obtain ⟨row, hrow, he2⟩ := he
  rw [List.mem_filterMap] at he2
  obtain ⟨p, _, hp⟩ := he2
  refine ⟨row, hrow, ?_⟩
  by_cases h : isValid E (getValue row p.1) p.2 = true
  · simp [h] at hp
  · simp only [Bool.not_eq_true] at h
    simp only [h, Bool.false_eq_true, if_false, Option.some.injEq] at hp
    rw [← hp]
    rfl

/-! ### Python equality on keys is an equivalence away from NaN -/

lemma pyEqV_iff (a b : Value) :
    pyEqV a b = true ↔ (canonKey a).isSome = true ∧ canonKey a = canonKey b := by
  unfold pyEqV
  cases ha : canonKey a <;> cases hb : canonKey b <;> simp

lemma pyEqV_refl (a : Value) (h : (canonKey a).isSome = true) : pyEqV a a = true :=
  (pyEqV_iff a a).mpr ⟨h, rfl⟩

lemma pyEqV_symm {a b : Value} (h : pyEqV a b = true) : pyEqV b a = true := by
  rw [pyEqV_iff] at h ⊢
  exact ⟨by rw [← h.2] ; exact h.1, h.2.symm⟩

lemma pyEqV_trans {a b c : Value} (h1 : pyEqV a b = true) (h2 : pyEqV b c = true) :
    pyEqV a c = true := by
  rw [pyEqV_iff] at h1 h2 ⊢
  exact ⟨h1.1, h1.2.trans h2.2⟩

lemma pyEqKey_refl (k : List Value) (h : goodKey k) : pyEqKey k k = true := by
  induction k with
  | nil => rfl
  | cons a as ih =>
    simp only [pyEqKey, Bool.and_eq_true]
    exact ⟨pyEqV_refl a (h a (by simp)), ih (fun v hv => h v (by simp [hv]))⟩

lemma pyEqKey_symm : ∀ {k1 k2 : List Value}, pyEqKey k1 k2 = true → pyEqKey k2 k1 = true
  | [], [], _ => rfl
  | a :: as, b :: bs, h => by
    simp only [pyEqKey, Bool.and_eq_true] at h ⊢
    exact ⟨pyEqV_symm h.1, pyEqKey_symm h.2⟩

lemma pyEqKey_trans : ∀ {k1 k2 k3 : List Value},
    pyEqKey k1 k2 = true → pyEqKey k2 k3 = true → pyEqKey k1 k3 = true
  | [], [], [], _, _ => rfl
  | a :: as, b :: bs, c :: cs, h1, h2 => by
    simp only [pyEqKey, Bool.and_eq_true] at h1 h2 ⊢
    exact ⟨pyEqV_trans h1.1 h2.1, pyEqKey_trans h1.2 h2.2⟩

lemma coerce_isSome (v : Value) : (canonKey (coerceDuplicateValue v)).isSome = true := by
  cases v with
  | float f => cases f <;> rfl
  | _ => rfl

lemma dupKey_good (cols : List String) (r : Row) : goodKey (dupKey cols r) := by
  intro v hv
  unfold dupKey at hv
  rw [List.mem_map] at hv
  obtain ⟨c, _, hc⟩ := hv
  rw [← hc]
  exact coerce_isSome _

/-! ### First-seen deduplication of keys -/

lemma dedup_subset : ∀ {l : List (List Value)} {k : List Value}, k ∈ dedupKeys l → k ∈ l
  | x :: xs, k, h => by
    simp only [dedupKeys, List.mem_cons] at h
    rcases h with h | h
    · simp [h]
    · exact List.mem_cons_of_mem x (dedup_subset (List.mem_of_mem_filter h))

lemma dedup_pairwise (l : List (List Value)) :
    (dedupKeys l).Pairwise (fun a b => pyEqKey b a = false) := by
  induction l with
  | nil => exact List.Pairwise.nil
  | cons x xs ih =>
    simp only [dedupKeys]
    refine List.Pairwise.cons ?_ (List.Pairwise.filter _ ih)
    intro b hb
    have := List.of_mem_filter hb
    simpa using this

lemma mem_dedup_equiv {l : List (List Value)} {x : List Value} (hx : x ∈ l) (hgx : goodKey x) :
    ∃ k ∈ dedupKeys l, pyEqKey x k = true := by
  induction l with
  | nil => cases hx
  | cons y ys ih =>
    rcases List.mem_cons.mp hx with rfl | hmem
    · exact ⟨x, by simp [dedupKeys], pyEqKey_refl x hgx⟩
    · obtain ⟨k, hk, hkeq⟩ := ih hmem
      by_cases hky : pyEqKey k y = true
      · exact ⟨y, by simp [dedupKeys], pyEqKey_trans hkeq hky⟩
      · refine ⟨k, ?_, hkeq⟩
        simp only [dedupKeys, List.mem_cons]
        right
        exact List.mem_filter.mpr ⟨hk, by simp [hky]⟩

lemma dedup_append_single (l : List (List Value)) (k : List Value) :
    dedupKeys (l ++ [k]) =
      if l.any (fun x => pyEqKey k x) then dedupKeys l else dedupKeys l ++ [k] := by
  induction l with
  | nil => simp [dedupKeys]
  | cons x l' ih =>
    simp only [List.cons_append, dedupKeys, List.any_cons, List.append_eq]
    rw [ih]
    by_cases h1 : l'.any (fun y => pyEqKey k y) = true
    · simp [h1]
    · simp only [h1, Bool.or_false, if_false]
      by_cases h2 : pyEqKey k x = true
      · simp [h1, h2, List.filter_append]
      · simp [h1, h2, List.filter_append, List.append_assoc]

/-! ### The dictionary of `identify_duplicates`, characterized -/

lemma insertSeen_no_match (seen : List (List Value × List ℤ)) (k : List Value) (rid : ℤ)
    (h : ∀ p ∈ seen, pyEqKey p.1 k = false) :
    insertSeen seen k rid = seen ++ [(k, [rid])] := by
  induction seen with
  | nil => rfl
  | cons p rest ih =>
    obtain ⟨k0, g⟩ := p
    simp only [insertSeen]
    rw [if_neg, ih (fun q hq => h q (by simp [hq]))]
    · rfl
    · have := h (k0, g) (by simp)
      simp_all

lemma insertSeen_first_match (pre post : List (List Value × List ℤ)) (ks : List Value)
    (gs : List ℤ) (k : List Value) (rid : ℤ)
    (hpre : ∀ p ∈ pre, pyEqKey p.1 k = false) (hk : pyEqKey ks k = true) :
    insertSeen (pre ++ (ks, gs) :: post) k rid = pre ++ (ks, gs ++ [rid]) :: post := by
  induction pre with
  | nil => simp [insertSeen, hk]
  | cons p rest ih =>
    obtain ⟨k0, g⟩ := p
    have hne := hpre (k0, g) (by simp)
    simp only [List.cons_append, insertSeen, List.append_eq]
    rw [if_neg (by simp_all), ih (fun q hq => hpre q (by simp [hq]))]

/-- A variant of `insertSeen_first_match` whose middle entry is any pair
with a matching stored key. -/
lemma insertSeen_first_match2 (pre post : List (List Value × List ℤ))
    (q : List Value × List ℤ) (k : List Value) (rid : ℤ)
    (hpre : ∀ p ∈ pre, pyEqKey p.1 k = false) (hk : pyEqKey q.1 k = true) :
    insertSeen (pre ++ q :: post) k rid = pre ++ (q.1, q.2 ++ [rid]) :: post := by
  obtain ⟨ks, gs⟩ := q
  exact insertSeen_first_match pre post ks gs k rid hpre hk

lemma seenEntry_append_nomatch (cols : List String) (rows : List Row) (r : Row)
    (k : List Value) (h : pyEqKey (dupKey cols r) k = false) :
    seenEntry cols (rows ++ [r]) k = seenEntry cols rows k := by
  unfold seenEntry
  rw [List.filter_append]
  simp [h]

lemma seenEntry_append_match (cols : List String) (rows : List Row) (r : Row)
    (k : List Value) (h : pyEqKey (dupKey cols r) k = true) :
    seenEntry cols (rows ++ [r]) k
    = ((seenEntry cols rows k).1, (seenEntry cols rows k).2 ++ [r.rowId]) := by
  unfold seenEntry
  rw [List.filter_append]
  simp [h]

lemma seenEntry_append_self (cols : List String) (rows : List Row) (r : Row)
    (h : ∀ r2 ∈ rows, pyEqKey (dupKey cols r2) (dupKey cols r) = false) :
    seenEntry cols (rows ++ [r]) (dupKey cols r) = (dupKey cols r, [r.rowId]) := by
  have hnil : rows.filter (fun r2 => pyEqKey (dupKey cols r2) (dupKey cols r)) = [] := by
    rw [List.filter_eq_nil_iff]
    intro a ha
    simp [h a ha]
  unfold seenEntry
  rw [List.filter_append, hnil]
  simp [pyEqKey_refl _ (dupKey_good cols r)]

lemma insertSeen_seenSpec (cols : List String) (rows : List Row) (r : Row) :
    insertSeen (seenSpec cols rows) (dupKey cols r) r.rowId = seenSpec cols (rows ++ [r]) := by
  by_cases hA : (rows.map (dupKey cols)).any (fun x => pyEqKey (dupKey cols r) x) = true
  · -- an earlier row already has an equal key: the identifier joins its group
    obtain ⟨x, hx, hxeq⟩ := List.any_eq_true.mp hA
    have hgx : goodKey x := by
      obtain ⟨r1, _, hr1⟩ := List.mem_map.mp hx
      rw [← hr1]
      exact dupKey_good cols r1
    obtain ⟨kstar, hkmem, hkeq⟩ := mem_dedup_equiv hx hgx
    have hnewstar : pyEqKey (dupKey cols r) kstar = true := pyEqKey_trans hxeq hkeq
    obtain ⟨l1, l2, hsplit⟩ := List.append_of_mem hkmem
    have hpair := dedup_pairwise (rows.map (dupKey cols))
    rw [hsplit, List.pairwise_append] at hpair
    have hcons := hpair.2.1
    rw [List.pairwise_cons] at hcons
    have hl1 : ∀ k1 ∈ l1, pyEqKey kstar k1 = false :=
      fun k1 hk1 => hpair.2.2 k1 hk1 kstar (by simp)
    have hl2 : ∀ k2 ∈ l2, pyEqKey k2 kstar = false := fun k2 hk2 => hcons.1 k2 hk2
    have hnew_l1 : ∀ k1 ∈ l1, pyEqKey (dupKey cols r) k1 = false := by
      intro k1 hk1
      rw [Bool.eq_false_iff]
      intro h
      have hx3 : pyEqKey kstar k1 = true := pyEqKey_trans (pyEqKey_symm hnewstar) h
      rw [hl1 k1 hk1] at hx3
      cases hx3
    have hnew_l2 : ∀ k2 ∈ l2, pyEqKey (dupKey cols r) k2 = false := by
      intro k2 hk2
      rw [Bool.eq_false_iff]
      intro h
      have hx3 : pyEqKey k2 kstar = true := pyEqKey_trans (pyEqKey_symm h) hnewstar
      rw [hl2 k2 hk2] at hx3
      cases hx3
    have hprem : ∀ p ∈ l1.map (seenEntry cols rows), pyEqKey p.1 (dupKey cols r) = false := by
      intro p hp
      obtain ⟨k1, hk1, hpk⟩ := List.mem_map.mp hp
      rw [← hpk]
      show pyEqKey k1 (dupKey cols r) = false
      rw [Bool.eq_false_iff]
      intro h
      have hx3 : pyEqKey (dupKey cols r) k1 = true := pyEqKey_symm h
      rw [hnew_l1 k1 hk1] at hx3
      cases hx3
    unfold seenSpec
    rw [List.map_append, List.map_cons, List.map_nil, dedup_append_single, if_pos hA, hsplit]
    rw [List.map_append, List.map_cons, List.map_append, List.map_cons]
    rw [insertSeen_first_match2 _ _ _ _ _ hprem (pyEqKey_symm hnewstar)]
    congr 1
    · exact (List.map_congr_left (fun k1 hk1 =>
        seenEntry_append_nomatch cols rows r k1 (hnew_l1 k1 hk1))).symm
    congr 1
    · rw [seenEntry_append_match cols rows r kstar hnewstar]
    · exact (List.map_congr_left (fun k2 hk2 =>
        seenEntry_append_nomatch cols rows r k2 (hnew_l2 k2 hk2))).symm
  · -- no earlier row has an equal key: a fresh singleton group is appended
    have hnone : ∀ x ∈ rows.map (dupKey cols), pyEqKey (dupKey cols r) x = false := by
      intro x hx
      rw [Bool.eq_false_iff]
      intro hx2
      exact hA (List.any_eq_true.mpr ⟨x, hx, hx2⟩)
    have hrowfalse : ∀ r2 ∈ rows, pyEqKey (dupKey cols r2) (dupKey cols r) = false := by
      intro r2 hr2
      rw [Bool.eq_false_iff]
      intro h
      have hx3 := pyEqKey_symm h
      rw [hnone (dupKey cols r2) (List.mem_map_of_mem _ hr2)] at hx3
      cases hx3
    have hstored : ∀ p ∈ seenSpec cols rows, pyEqKey p.1 (dupKey cols r) = false := by
      intro p hp
      obtain ⟨k, hk, hpk⟩ := List.mem_map.mp hp
      rw [← hpk]
      show pyEqKey k (dupKey cols r) = false
      rw [Bool.eq_false_iff]
      intro h
      have hx3 := pyEqKey_symm h
      rw [hnone k (dedup_subset hk)] at hx3
      cases hx3
    rw [insertSeen_no_match _ _ _ hstored]
    unfold seenSpec
    rw [List.map_append, List.map_cons, List.map_nil, dedup_append_single, if_neg hA]
    rw [List.map_append, List.map_cons, List.map_nil]
    congr 1
    · exact (List.map_congr_left (fun k hk =>
        seenEntry_append_nomatch cols rows r k (hnone k (dedup_subset hk)))).symm
    · rw [seenEntry_append_self cols rows r hrowfalse]

lemma foldl_insertSeen (cols : List String) (rows : List Row) :
    rows.foldl (fun seen r => insertSeen seen (dupKey cols r) r.rowId) [] = seenSpec cols rows := by
  induction rows using List.reverseRecOn with
  | nil => rfl
  | append_singleton rows r ih =>
    rw [List.foldl_append, List.foldl_cons, List.foldl_nil, ih, insertSeen_seenSpec]

lemma identifyDuplicates_eq_spec (rows : List Row) (cols : List String) :
    identifyDuplicates rows cols = findDuplicatesSpec rows cols := by
  unfold identifyDuplicates findDuplicatesSpec
  rw [foldl_insertSeen]
  unfold seenSpec
  dsimp only
  rw [List.map_map]
  rfl

lemma spec_group_facts {rows : List Row} {cols : List String} {g : List ℤ}
    (hg : g ∈ findDuplicatesSpec rows cols) :
    2 ≤ g.length ∧ ∀ rid ∈ g, ∃ r ∈ rows, rid = r.rowId := by
  unfold findDuplicatesSpec at hg
  have hmem := List.mem_of_mem_filter hg
  have hlen := List.of_mem_filter hg
  refine ⟨by simpa using hlen, ?_⟩
  obtain ⟨k, _, hgk⟩ := List.mem_map.mp hmem
  intro rid hrid
  rw [← hgk] at hrid
  obtain ⟨r, hr, hrr⟩ := List.mem_map.mp hrid
  exact ⟨r, List.mem_of_mem_filter hr, hrr.symm⟩

lemma dup_group_rowIds (rows : List Row) (cols : List String) {g : List ℤ}
    (hg : g ∈ identifyDuplicates rows cols) (rid : ℤ) (hrid : rid ∈ g) :
    ∃ r ∈ rows, rid = r.rowId := by
  rw [identifyDuplicates_eq_spec] at hg
  exact (spec_group_facts hg).2 rid hrid

/-! ### Renumbering -/

lemma renumber_values (i : ℕ) (l : List Row) :
    (renumber i l).map (fun r => r.values) = l.map (fun r => r.values) := by
  induction l generalizing i with
  | nil => rfl
  | cons r rs ih => simp [renumber, ih]

lemma renumber_rowIds (i : ℕ) (l : List Row) :
    (renumber i l).map (fun r => r.rowId) = (List.range' i l.length).map (fun n => (n : ℤ)) := by
  induction l generalizing i with
  | nil => rfl
  | cons r rs ih => simp [renumber, ih, List.range'_succ]

lemma renumber_mem_bounds {i : ℕ} {l : List Row} {r : Row} (h : r ∈ renumber i l) :
    (i : ℤ) ≤ r.rowId ∧ r.rowId < (i : ℤ) + l.length := by
  induction l generalizing i with
  | nil => cases h
  | cons a as ih =>
    simp only [renumber, List.mem_cons] at h
    rcases h with rfl | h
    · simp only [List.length_cons]
      push_cast
      omega
    · have := ih h
      simp only [List.length_cons]
      push_cast at this ⊢
      omega

/-! ### Dictionary lookups used by `revalidate` -/

lemma dictGet_filter_map_norm (ov : List (String × Option String)) (cols : List String)
    (c : String) (hc : cols.contains c = true) :
    dictGet ((ov.filter (fun p => cols.contains p.1)).map (fun p => (p.1, normalizeType p.2))) c
    = (dictGet ov c).map normalizeType := by
  induction ov with
  | nil => rfl
  | cons p ps ih =>
    obtain ⟨k, v⟩ := p
    rw [List.filter_cons]
    by_cases hk : (k == c) = true
    · have hkc : k = c := by simpa using hk
      subst hkc
      rw [if_pos (by dsimp only ; rw [hc]), List.map_cons]
      unfold dictGet
      rw [List.find?_cons_of_pos _ (by dsimp only ; exact hk),
        List.find?_cons_of_pos _ (by dsimp only ; exact hk)]
      rfl
    · have hrhs : dictGet ((k, v) :: ps) c = dictGet ps c := by
        unfold dictGet
        rw [List.find?_cons_of_neg _ (by dsimp only ; simpa using hk)]
      rw [hrhs]
      by_cases hmem : cols.contains k = true
      · rw [if_pos (by dsimp only ; rw [hmem]), List.map_cons]
        unfold dictGet
        rw [List.find?_cons_of_neg _ (by dsimp only ; simpa using hk)]
        exact ih
      · rw [if_neg (by dsimp only ; rw [Bool.not_eq_true] at hmem ; rw [hmem] ; exact
          Bool.false_ne_true)]
        exact ih

lemma dictGet_map_name {α : Type} (ci : List ColumnInfo) (f : ColumnInfo → α) (c : String) :
    dictGet (ci.map (fun col => (col.name, f col))) c
    = (ci.find? (fun col => col.name == c)).map f := by
  induction ci with
  | nil => rfl
  | cons col cis ih =>
    by_cases h : (col.name == c) = true
    · simp [dictGet, List.find?_cons_of_pos, h]
    · simpa [dictGet, List.find?_cons_of_neg, h] using ih

lemma revalStep_fst_name (co : List (String × Option String)) (dt : List (String × String))
    (col : ColumnInfo) : (revalStep co dt col).1.name = col.name := by
  unfold revalStep
  dsimp only
  split_ifs <;> rfl

/-- The effective type `revalidate` computes for one column. -/
def revalExpected (co : List (String × Option String)) (dt : List (String × String))
    (col : ColumnInfo) : String :=
  (pyOrOS (pyOrOS (pyOrOS (Option.join (dictGet co col.name)) col.overrideType)
    (some (pyOrS col.detectedType (dictGetD dt col.name "string")))) (some "string")).getD "string"

lemma revalStep_snd (co : List (String × Option String)) (dt : List (String × String))
    (col : ColumnInfo) : (revalStep co dt col).2 = (col.name, revalExpected co dt col) := rfl

lemma find?_revalStep_fst (co : List (String × Option String)) (dt : List (String × String))
    (ci : List ColumnInfo) (c : String) :
    ((ci.map (revalStep co dt)).map (fun p => p.1)).find? (fun col => col.name == c)
    = (ci.find? (fun col => col.name == c)).map (fun col => (revalStep co dt col).1) := by
  rw [List.map_map, List.find?_map]
  simp only [Function.comp_def, revalStep_fst_name]

/-! ### The classifier -/

lemma Scores.get_integer (s : Scores) : s.get "integer" = s.integer := rfl

lemma Scores.get_float (s : Scores) : s.get "float" = s.float := rfl

lemma Scores.get_boolean (s : Scores) : s.get "boolean" = s.boolean := rfl

lemma Scores.get_date (s : Scores) : s.get "date" = s.date := rfl

lemma Scores.get_string (s : Scores) : s.get "string" = s.string := rfl

lemma Scores.get_zero (t : String) : (⟨0, 0, 0, 0, 0⟩ : Scores).get t = 0 := by
  unfold Scores.get
  split_ifs <;> rfl

lemma priorityIndex_integer : priorityIndex "integer" = 0 := rfl

lemma priorityIndex_float : priorityIndex "float" = 1 := rfl

lemma priorityIndex_boolean : priorityIndex "boolean" = 2 := rfl

lemma priorityIndex_date : priorityIndex "date" = 3 := rfl

lemma priorityIndex_string : priorityIndex "string" = 4 := rfl

set_option maxHeartbeats 1000000 in
lemma pyMax_spec (s : Scores) :
    pyMax (fun t => (s.get t, -priorityIndex t)) TYPE_PRIORITY ∈ TYPE_PRIORITY
    ∧ (∀ t ∈ TYPE_PRIORITY,
        s.get t ≤ s.get (pyMax (fun t => (s.get t, -priorityIndex t)) TYPE_PRIORITY))
    ∧ (∀ t ∈ TYPE_PRIORITY,
        s.get t = s.get (pyMax (fun t => (s.get t, -priorityIndex t)) TYPE_PRIORITY) →
        priorityIndex (pyMax (fun t => (s.get t, -priorityIndex t)) TYPE_PRIORITY)
          ≤ priorityIndex t) := by
  simp only [pyMax, TYPE_PRIORITY, List.foldl_cons, List.foldl_nil]
  split_ifs
  all_goals refine ⟨by decide, fun t ht => ?_, fun t ht heq => ?_⟩
  all_goals fin_cases ht
  all_goals simp only [pairGt, decide_eq_true_eq, Scores.get_integer, Scores.get_float,
    Scores.get_boolean, Scores.get_date, Scores.get_string, priorityIndex_integer,
    priorityIndex_float, priorityIndex_boolean, priorityIndex_date, priorityIndex_string] at *
  all_goals omega

lemma computeScores_all_null (E : Ext) (values : List Value) (h : ∀ v ∈ values, isNull v = true) :
    computeScores E values = ⟨0, 0, 0, 0, 0⟩ := by
  unfold computeScores
  induction values with
  | nil => rfl
  | cons v vs ih =>
    rw [List.foldl_cons]
    have hB : bumpScore E ⟨0, 0, 0, 0, 0⟩ v = ⟨0, 0, 0, 0, 0⟩ := by
      unfold bumpScore
      rw [if_pos (h v (by simp))]
    rw [hB]
    exact ih (fun v2 hv2 => h v2 (by simp [hv2]))

lemma bumpScore_get (E : Ext) (s : Scores) (v : Value) (t : String) (ht : t ∈ TYPE_PRIORITY) :
    (bumpScore E s v).get t =
      if isNull v then s.get t
      else if tagOfValue E v == t then s.get t + 1 else s.get t := by
  unfold bumpScore tagOfValue
  fin_cases ht <;> split_ifs <;> simp_all [Scores.get]

lemma computeScores_get_aux (E : Ext) (values : List Value) (t : String) (ht : t ∈ TYPE_PRIORITY) :
    ∀ s0 : Scores, (values.foldl (bumpScore E) s0).get t
      = s0.get t + ((values.filter (fun v => !isNull v)).filter
          (fun v => tagOfValue E v == t)).length := by
  induction values with
  | nil => intro s0 ; simp
  | cons v vs ih =>
    intro s0
    rw [List.foldl_cons, ih (bumpScore E s0 v), bumpScore_get E s0 v t ht]
    by_cases hn : isNull v = true
    · simp [hn]
    · rw [Bool.not_eq_true] at hn
      by_cases htag : (tagOfValue E v == t) = true
      · simp [hn, htag]
        omega
      · rw [Bool.not_eq_true] at htag
        simp [hn, htag]

lemma computeScores_get (E : Ext) (values : List Value) (t : String) (ht : t ∈ TYPE_PRIORITY) :
    (computeScores E values).get t =
      ((values.filter (fun v => !isNull v)).filter (fun v => tagOfValue E v == t)).length := by
  unfold computeScores
  rw [computeScores_get_aux E values t ht ⟨0, 0, 0, 0, 0⟩, Scores.get_zero, Nat.zero_add]

/-! ### Assorted small lemmas -/

lemma foldl_const {α β : Type} (l : List β) (a : α) : l.foldl (fun x _ => x) a = a := by
  induction l generalizing a with
  | nil => rfl
  | cons b bs ih => rw [List.foldl_cons] ; exact ih a

lemma renumber_length (i : ℕ) (l : List Row) : (renumber i l).length = l.length := by
  induction l generalizing i with
  | nil => rfl
  | cons r rs ih => simp [renumber, ih]

lemma validateRows_snd (E : Ext) (rows : List Row) (et : List (String × String)) :
    (validateRows E rows et).2 = identifyDuplicates rows (et.map (fun p => p.1)) := rfl

lemma revalidate_errors_dups (E : Ext) (session : SessionData) (rows : List Row)
    (ov : List (String × Option String)) (payload : Option (List ColumnInfo)) :
    ∃ et, (revalidate E session rows ov payload).errors = (validateRows E rows et).1
      ∧ (revalidate E session rows ov payload).duplicateGroups = (validateRows E rows et).2 :=
  ⟨_, rfl, rfl⟩

lemma validateRows_empty_types_errors (E : Ext) (rows : List Row) :
    (validateRows E rows []).1 = [] := by
  unfold validateRows
  dsimp only
  simp only [List.foldl_nil]
  exact foldl_const rows []

lemma foldl_insertSeen_nilkey (rows : List Row) (g0 : List ℤ) :
    rows.foldl (fun seen r => insertSeen seen (dupKey [] r) r.rowId) [([], g0)]
      = [([], g0 ++ rows.map (fun r => r.rowId))] := by
  induction rows generalizing g0 with
  | nil => simp
  | cons r rs ih =>
    rw [List.foldl_cons]
    have h1 : insertSeen [([], g0)] (dupKey [] r) r.rowId = [([], g0 ++ [r.rowId])] := rfl
    rw [h1, ih]
    simp

lemma identifyDuplicates_nil_cols (rows : List Row) :
    identifyDuplicates rows [] =
      if 2 ≤ rows.length then [rows.map (fun r => r.rowId)] else [] := by
  cases rows with
  | nil => rfl
  | cons r1 rest =>
    unfold identifyDuplicates
    dsimp only
    rw [List.foldl_cons]
    have h1 : insertSeen [] (dupKey [] r1) r1.rowId = [([], [r1.rowId])] := rfl
    rw [h1, foldl_insertSeen_nilkey]
    cases rest with
    | nil => rfl
    | cons r2 rs =>
      have hlen : (1 : ℕ) < ([r1.rowId] ++ (r2 :: rs).map (fun r => r.rowId)).length := by
        simp
      have hlen2 : 2 ≤ (r1 :: r2 :: rs).length := by simp
      simp [hlen, hlen2]

/-! ### Claim theorems -/

/-- C2: the Validation Pipeline evaluates the Cell Validator for every row
crossed with every column of the expected-types map (an absent column is
validated as null), appends for each failing cell exactly one error with
message "Expected {expectedType}, received {actualValue in single
quotes}", and then runs the Duplicate Detector over the same rows with
the full column list of the map in its key order; on the single row
{rowId 0, Age "abc", Name "Sam"} with expected types Age integer and
Name string it returns exactly one error, on column Age, and no
duplicate groups. -/
theorem claim_C2 (E : Ext) (rows : List Row) (et : List (String × String)) :
    (validateRows E rows et).1 = rows.flatMap (fun row => et.filterMap (fun p =>
        if isValid E (getValue row p.1) p.2 then none
        else some ⟨row.rowId, p.1, p.2, getValue row p.1,
          "Expected " ++ p.2 ++ ", received " ++ sq ++ pyStr E (getValue row p.1) ++ sq⟩))
    ∧ (validateRows E rows et).2 = identifyDuplicates rows (et.map (fun p => p.1))
    ∧ validateRows E [⟨0, [("Age", .str "abc"), ("Name", .str "Sam")]⟩]
        [("Age", "integer"), ("Name", "string")] =
      ([⟨0, "Age", "integer", .str "abc",
         "Expected integer, received " ++ sq ++ "abc" ++ sq⟩], []) :=
  ⟨validateRows_fst E rows et, rfl, rfl⟩

/-- C5: the Cell Validator accepts whenever the value is null, whenever
the expected type is the tag string, and whenever the expected type is
not one of the five recognized tags (which is treated as string). -/
theorem claim_C5 (E : Ext) (v : Value) (t : String) :
    (isNull v = true → isValid E v t = true)
    ∧ isValid E v "string" = true
    ∧ (t ∉ TYPE_PRIORITY → isValid E v t = true) := by
  refine ⟨fun h => ?_, ?_, fun h => ?_⟩
  · unfold isValid
    simp [h]
  · unfold isValid
    by_cases h2 : isNull v = true <;> simp [h2]
  · unfold isValid
    by_cases h2 : isNull v = true <;> simp [h2, h]

/-- Witness for C5 at the null value and the unrecognized tag currency. -/
theorem claim_C5_witness :
    isNull Value.pynone = true ∧ "currency" ∉ TYPE_PRIORITY
    ∧ isValid extNone Value.pynone "currency" = true :=
  ⟨rfl, by decide, (claim_C5 extNone Value.pynone "currency").1 rfl⟩

/-- C7: removeRows keeps exactly the rows whose identifier is not in the
removal set, in their original relative order, and renumbers identifiers
densely from 0; removing identifier 1 from rows 0, 1, 2 leaves two rows
with identifiers 0 and 1, the old row 2 having become row 1. -/
theorem claim_C7 (session : SessionData) (rowIds : List ℤ) :
    ((removeRows session rowIds).2).map (fun r => r.values)
      = (session.rows.filter (fun r => !rowIds.contains r.rowId)).map (fun r => r.values)
    ∧ ((removeRows session rowIds).2).map (fun r => r.rowId)
      = (List.range (session.rows.filter (fun r => !rowIds.contains r.rowId)).length).map
          (fun n => (n : ℤ))
    ∧ (removeRows session rowIds).1.rows = (removeRows session rowIds).2
    ∧ (removeRows sampleSession3 [1]).2 = [⟨0, [("A", .int 10)]⟩, ⟨1, [("A", .int 30)]⟩] := by
  refine ⟨renumber_values 0 _, ?_, rfl, by decide⟩
  rw [List.range_eq_range']
  exact renumber_rowIds 0 _

/-- C9: the Validation Pipeline is deterministic over its inputs: in this
pure embedding two runs on the same rows and expected types are the same
term, and re-running the pipeline on the rows and effective types that a
revalidation stored reproduces exactly the stored error list and
duplicate groups. -/
theorem claim_C9 (E : Ext) (rows : List Row) (et : List (String × String))
    (session : SessionData) (ov : List (String × Option String))
    (payload : Option (List ColumnInfo)) :
    validateRows E rows et = validateRows E rows et
    ∧ validateRows E (revalidate E session rows ov payload).rows
        (revalidate E session rows ov payload).detectedTypes
      = ((revalidate E session rows ov payload).errors,
         (revalidate E session rows ov payload).duplicateGroups) := by
  refine ⟨rfl, ?_⟩
  unfold revalidate
  dsimp only

/-- C10: with an empty expected-types map the pipeline reports no errors,
and every duplicate key is the empty tuple, so with two or more rows all
row identifiers form one duplicate group, in row order, and with fewer
than two rows there are no groups. -/
theorem claim_C10 (E : Ext) (rows : List Row) :
    validateRows E rows [] =
      ([], if 2 ≤ rows.length then [rows.map (fun r => r.rowId)] else []) := by
  have h1 := validateRows_empty_types_errors E rows
  have h2 : (validateRows E rows []).2 = identifyDuplicates rows [] := rfl
  calc validateRows E rows []
      = ((validateRows E rows []).1, (validateRows E rows []).2) := rfl
    _ = ([], if 2 ≤ rows.length then [rows.map (fun r => r.rowId)] else []) := by
        rw [h1, h2, identifyDuplicates_nil_cols]

/-- C3: the classifier returns a tag with the highest per-tag count over
the non-null values, ties broken by the priority order integer, float,
boolean, date, string, and returns string whenever every count is zero,
in particular for an all-null column. -/
theorem claim_C3 (E : Ext) (values : List Value) :
    detectColumnType E values ∈ TYPE_PRIORITY
    ∧ (∀ t ∈ TYPE_PRIORITY,
        (computeScores E values).get t ≤ (computeScores E values).get (detectColumnType E values))
    ∧ (¬ (∀ t ∈ TYPE_PRIORITY, (computeScores E values).get t = 0) →
        ∀ t ∈ TYPE_PRIORITY,
          (computeScores E values).get t
              = (computeScores E values).get (detectColumnType E values) →
          priorityIndex (detectColumnType E values) ≤ priorityIndex t)
    ∧ ((∀ t ∈ TYPE_PRIORITY, (computeScores E values).get t = 0) →
        detectColumnType E values = "string")
    ∧ ((∀ v ∈ values, isNull v = true) → detectColumnType E values = "string") := by
  obtain ⟨hmem, hmax, htie⟩ := pyMax_spec (computeScores E values)
  unfold detectColumnType
  dsimp only
  by_cases h0 : (computeScores E values).get
      (pyMax (fun t => ((computeScores E values).get t, -priorityIndex t)) TYPE_PRIORITY) = 0
  · have hall : ∀ t ∈ TYPE_PRIORITY, (computeScores E values).get t = 0 := by
      intro t ht
      have := hmax t ht
      omega
    rw [if_pos (by simpa using h0)]
    refine ⟨by decide, ?_, ?_, fun _ => rfl, fun _ => rfl⟩
    · intro t ht
      rw [hall t ht, hall "string" (by decide)]
    · intro hne
      exact absurd hall hne
  · rw [if_neg (by simpa using h0)]
    refine ⟨hmem, hmax, fun _ => htie, fun hall => ?_, fun hnull => ?_⟩
    · exact absurd (hall _ hmem) h0
    · rw [computeScores_all_null E values hnull] at h0
      exact absurd (Scores.get_zero _) h0

/-- Witness for C3: on the values 1 and "x" the integer and string
counters tie at one each and the classifier picks integer, the higher
priority tag. -/
theorem claim_C3_witness :
    ¬ (∀ t ∈ TYPE_PRIORITY, (computeScores extNone [.int 1, .str "x"]).get t = 0)
    ∧ "string" ∈ TYPE_PRIORITY
    ∧ (computeScores extNone [.int 1, .str "x"]).get "string"
        = (computeScores extNone [.int 1, .str "x"]).get
            (detectColumnType extNone [.int 1, .str "x"])
    ∧ priorityIndex (detectColumnType extNone [.int 1, .str "x"]) ≤ priorityIndex "string" :=
  ⟨by decide, by decide, by decide,
    (claim_C3 extNone [.int 1, .str "x"]).2.2.1 (by decide) "string" (by decide) (by decide)⟩

/-- C4: during classification every non-null value bumps exactly one
counter, that of the first tag in the order integer, float, boolean,
date, string whose compatibility predicate accepts it; booleans never
qualify as integer or float, numeric values with zero fractional part
qualify as integer, digit strings with an optional leading minus sign
qualify as integer, and classify of 1, "2", "03", null, "" returns
integer. -/
theorem claim_C4 (E : Ext) (values : List Value) :
    (∀ t ∈ TYPE_PRIORITY, (computeScores E values).get t =
      ((values.filter (fun v => !isNull v)).filter (fun v => tagOfValue E v == t)).length)
    ∧ (∀ b : Bool, looksLikeInt (.bool b) = false ∧ looksLikeFloat E (.bool b) = false)
    ∧ (∀ n : ℤ, looksLikeInt (.int n) = true)
    ∧ (∀ f : FloatVal, f.isInteger = true → looksLikeInt (.float f) = true)
    ∧ (∀ l : List Char, pyIsDigitL l = true →
        looksLikeInt (.str ⟨l⟩) = true ∧ looksLikeInt (.str ⟨'-' :: l⟩) = true)
    ∧ detectColumnType E [.int 1, .str "2", .str "03", .pynone, .str ""] = "integer" := by
  refine ⟨computeScores_get E values, fun b => ⟨rfl, rfl⟩, fun n => rfl, fun f hf => hf, ?_, rfl⟩
  intro l hl
  have hld : ∀ c ∈ l, c.isDigit = true := by
    unfold pyIsDigitL at hl
    rw [Bool.and_eq_true, List.all_eq_true] at hl
    exact fun c hc => hl.2 c hc
  have hstrip : stripChars l = l := stripChars_digits l hld
  constructor
  · cases l with
    | nil => simp [pyIsDigitL] at hl
    | cons c cs =>
      have hcm : c ≠ '-' := (digit_char_facts c (hld c (by simp))).2
      show (match stripChars (c :: cs) with
        | c :: rest => if c = '-' then pyIsDigitL rest else pyIsDigitL (c :: rest)
        | [] => pyIsDigitL []) = true
      rw [hstrip]
      dsimp only
      rw [if_neg hcm]
      exact hl
  · have hstrip2 : stripChars ('-' :: l) = '-' :: l := by
      refine stripChars_eq_self _ ?_
      intro c hc
      rcases List.mem_cons.mp hc with rfl | hc2
      · decide
      · exact (digit_char_facts c (hld c hc2)).1
    show (match stripChars ('-' :: l) with
      | c :: rest => if c = '-' then pyIsDigitL rest else pyIsDigitL (c :: rest)
      | [] => pyIsDigitL []) = true
    rw [hstrip2]
    dsimp only
    rw [if_pos rfl]
    exact hl

/-- Witness for C4 at the digit string "42", its negation, and the float
3.0. -/
theorem claim_C4_witness :
    pyIsDigitL ['4', '2'] = true
    ∧ looksLikeInt (.str ⟨['4', '2']⟩) = true
    ∧ looksLikeInt (.str ⟨'-' :: ['4', '2']⟩) = true
    ∧ FloatVal.isInteger (.finite 3) = true
    ∧ looksLikeInt (.float (.finite 3)) = true :=
  ⟨by decide,
    ((claim_C4 extNone []).2.2.2.2.1 ['4', '2'] (by decide)).1,
    ((claim_C4 extNone []).2.2.2.2.1 ['4', '2'] (by decide)).2,
    by decide,
    (claim_C4 extNone []).2.2.2.1 (.finite 3) (by decide)⟩

/-- C6: the Duplicate Detector computes exactly the spec-side grouping:
rows keyed on normalized value tuples (strings stripped and lower-cased,
NaN replaced by the null marker, everything else unchanged), grouped by
Python-equal key with first-seen row order inside each group, emitting
only groups of two or more in first-encounter order. -/
theorem claim_C6 (rows : List Row) (cols : List String) :
    identifyDuplicates rows cols = findDuplicatesSpec rows cols
    ∧ (∀ g ∈ identifyDuplicates rows cols, 2 ≤ g.length)
    ∧ (∀ s : String, coerceDuplicateValue (.str s) = .str (pyLower (pyStrip s)))
    ∧ coerceDuplicateValue (.float .nan) = .pynone
    ∧ (∀ v : Value, (∀ s, v ≠ .str s) → v ≠ .float .nan → coerceDuplicateValue v = v) := by
  refine ⟨identifyDuplicates_eq_spec rows cols, ?_, fun s => rfl, rfl, ?_⟩
  · intro g hg
    rw [identifyDuplicates_eq_spec] at hg
    exact (spec_group_facts hg).1
  · intro v hs hn
    cases v with
    | pynone => rfl
    | bool b => rfl
    | int n => rfl
    | float f =>
      cases f with
      | nan => exact absurd rfl hn
      | infty b => rfl
      | finite q => rfl
    | str s => exact absurd rfl (hs s)
    | timestamp t => rfl

/-- Witness for C6: an emitted group really has two members, and the
coercion leaves the integer 7 unchanged. -/
theorem claim_C6_witness :
    [0, 1] ∈ identifyDuplicates
      [⟨0, [("A", .str " X ")]⟩, ⟨1, [("A", .str "x")]⟩] ["A"]
    ∧ 2 ≤ ([0, 1] : List ℤ).length
    ∧ coerceDuplicateValue (.int 7) = .int 7 :=
  ⟨by decide, (claim_C6 [⟨0, [("A", .str " X ")]⟩, ⟨1, [("A", .str "x")]⟩] ["A"]).2.1
    [0, 1] (by decide),
    (claim_C6 [] []).2.2.2.2 (.int 7) (fun s h => Value.noConfusion h)
      (fun h => Value.noConfusion h)⟩

/-- C1: in revalidate, an override entry for an existing column is
lower-cased and checked against the five tags: an unrecognized value is
discarded (no override value stored for the column, the column object
unchanged, effective type the fallback chain overrideType, then detected
type, then string), while a recognized value is stored, written to the
column object, and becomes the effective type. -/
theorem claim_C1 (E : Ext) (session0 : SessionData) (rows : List Row)
    (overrides : List (String × Option String)) (payload : Option (List ColumnInfo))
    (c v : String) (col : ColumnInfo)
    (hov : dictGet overrides c = some (some v))
    (hcol : (applyColumnPayload session0 payload).columns.contains c = true)
    (hci : (applyColumnPayload session0 payload).columnInfo.find? (fun x => x.name == c)
      = some col) :
    (pyLower v ∉ TYPE_PRIORITY →
      Option.join (dictGet (revalidate E session0 rows overrides payload).overrides c) = none
      ∧ dictGet (revalidate E session0 rows overrides payload).detectedTypes c
          = some ((pyOrOS (pyOrOS col.overrideType (some (pyOrS col.detectedType
              (dictGetD (applyColumnPayload session0 payload).detectedTypes c "string"))))
              (some "string")).getD "string")
      ∧ (revalidate E session0 rows overrides payload).columnInfo.find? (fun x => x.name == c)
          = some col)
    ∧ (pyLower v ∈ TYPE_PRIORITY →
      dictGet (revalidate E session0 rows overrides payload).overrides c
          = some (some (pyLower v))
      ∧ dictGet (revalidate E session0 rows overrides payload).detectedTypes c
          = some (pyLower v)
      ∧ (revalidate E session0 rows overrides payload).columnInfo.find? (fun x => x.name == c)
          = some { col with overrideType := some (pyLower v) }) := by
  have hname : col.name = c := by
    have := List.find?_some hci
    simpa using this
  have hover : (revalidate E session0 rows overrides payload).overrides
      = (overrides.filter
          (fun p => (applyColumnPayload session0 payload).columns.contains p.1)).map
          (fun p => (p.1, normalizeType p.2)) := rfl
  have hgetco : dictGet (revalidate E session0 rows overrides payload).overrides c
      = some (normalizeType (some v)) := by
    rw [hover, dictGet_filter_map_norm overrides _ c hcol, hov]
    rfl
  have hdt : (revalidate E session0 rows overrides payload).detectedTypes
      = ((applyColumnPayload session0 payload).columnInfo.map
          (revalStep (revalidate E session0 rows overrides payload).overrides
            (applyColumnPayload session0 payload).detectedTypes)).map (fun p => p.2) := rfl
  have hdt2 : dictGet (revalidate E session0 rows overrides payload).detectedTypes c
      = some (revalExpected (revalidate E session0 rows overrides payload).overrides
          (applyColumnPayload session0 payload).detectedTypes col) := by
    rw [hdt, List.map_map]
    have hfun : (fun p => p.2) ∘ revalStep (revalidate E session0 rows overrides payload).overrides
          (applyColumnPayload session0 payload).detectedTypes
        = fun col2 => (col2.name,
            revalExpected (revalidate E session0 rows overrides payload).overrides
              (applyColumnPayload session0 payload).detectedTypes col2) := by
      funext col2
      exact revalStep_snd _ _ col2
    rw [hfun, dictGet_map_name, hci]
    rfl
  have hci3 : (revalidate E session0 rows overrides payload).columnInfo.find?
        (fun x => x.name == c)
      = some ((revalStep (revalidate E session0 rows overrides payload).overrides
          (applyColumnPayload session0 payload).detectedTypes col).1) := by
    have hcieq : (revalidate E session0 rows overrides payload).columnInfo
        = ((applyColumnPayload session0 payload).columnInfo.map
            (revalStep (revalidate E session0 rows overrides payload).overrides
              (applyColumnPayload session0 payload).detectedTypes)).map (fun p => p.1) := rfl
    rw [hcieq, find?_revalStep_fst, hci]
    rfl
  have hjoin : Option.join (dictGet (revalidate E session0 rows overrides payload).overrides
      col.name) = normalizeType (some v) := by
    rw [hname, hgetco]
    rfl
  constructor
  · -- unrecognized override
    intro hnot
    have hnorm : normalizeType (some v) = none := by
      unfold normalizeType
      dsimp only
      rw [if_neg (by simpa using hnot)]
    refine ⟨by rw [hgetco, hnorm] ; rfl, ?_, ?_⟩
    · rw [hdt2]
      unfold revalExpected
      rw [hjoin, hnorm, hname]
      rfl
    · rw [hci3]
      unfold revalStep
      dsimp only
      rw [hjoin, hnorm]
      have hponone : pyOrOS none col.overrideType = col.overrideType := rfl
      rw [hponone]
      split_ifs <;> rfl
  · -- recognized override
    intro hmemv
    have hnorm : normalizeType (some v) = some (pyLower v) := by
      unfold normalizeType
      dsimp only
      rw [if_pos (by simpa using hmemv)]
    have hpvne : (pyLower v).isEmpty = false := by
      simp only [TYPE_PRIORITY, List.mem_cons, List.not_mem_nil, or_false] at hmemv
      rcases hmemv with h | h | h | h | h <;> rw [h] <;> rfl
    have htr : truthyOS (some (pyLower v)) = true := by
      simp [truthyOS, hpvne]
    refine ⟨by rw [hgetco, hnorm], ?_, ?_⟩
    · rw [hdt2]
      unfold revalExpected
      rw [hjoin, hnorm]
      have e1 : pyOrOS (some (pyLower v)) col.overrideType = some (pyLower v) := by
        unfold pyOrOS
        rw [if_pos htr]
      rw [e1]
      have e2 : pyOrOS (some (pyLower v))
          (some (pyOrS col.detectedType
            (dictGetD (applyColumnPayload session0 payload).detectedTypes col.name "string")))
          = some (pyLower v) := by
        unfold pyOrOS
        rw [if_pos htr]
      rw [e2]
      have e3 : pyOrOS (some (pyLower v)) (some "string") = some (pyLower v) := by
        unfold pyOrOS
        rw [if_pos htr]
      rw [e3]
      rfl
    · rw [hci3]
      unfold revalStep
      dsimp only
      rw [hjoin, hnorm]
      have e1 : pyOrOS (some (pyLower v)) col.overrideType = some (pyLower v) := by
        unfold pyOrOS
        rw [if_pos htr]
      rw [e1, if_pos htr]

/-- Witness for C1: the override string INTEGER on column Age normalizes
to integer, is stored, and becomes the effective type. -/
theorem claim_C1_witness :
    dictGet [("Age", some "INTEGER")] "Age" = some (some "INTEGER")
    ∧ (applyColumnPayload sampleSession none).columns.contains "Age" = true
    ∧ (applyColumnPayload sampleSession none).columnInfo.find? (fun x => x.name == "Age")
        = some ⟨"Age", "integer", none, true⟩
    ∧ pyLower "INTEGER" ∈ TYPE_PRIORITY
    ∧ (dictGet (revalidate extNone sampleSession [] [("Age", some "INTEGER")] none).overrides
          "Age" = some (some (pyLower "INTEGER"))
      ∧ dictGet (revalidate extNone sampleSession [] [("Age", some "INTEGER")] none).detectedTypes
          "Age" = some (pyLower "INTEGER")
      ∧ (revalidate extNone sampleSession [] [("Age", some "INTEGER")] none).columnInfo.find?
          (fun x => x.name == "Age")
          = some ⟨"Age", "integer", some (pyLower "INTEGER"), true⟩) :=
  ⟨by decide, by decide, by decide, by decide,
    (claim_C1 extNone sampleSession [] [("Age", some "INTEGER")] none "Age" "INTEGER"
      ⟨"Age", "integer", none, true⟩ (by decide) (by decide) (by decide)).2 (by decide)⟩

/-- C8: after removeRows followed by revalidation, every rowId referenced
by an error or a duplicate group is at least 0 and strictly less than the
new row count. -/
theorem claim_C8 (E : Ext) (session : SessionData) (rowIds : List ℤ) :
    (∀ e ∈ (removeAndRevalidate E session rowIds).1.errors,
      0 ≤ e.rowId ∧ e.rowId < ((removeAndRevalidate E session rowIds).2.length : ℤ))
    ∧ (∀ g ∈ (removeAndRevalidate E session rowIds).1.duplicateGroups, ∀ rid ∈ g,
      0 ≤ rid ∧ rid < ((removeAndRevalidate E session rowIds).2.length : ℤ)) := by
  have h2 : (removeAndRevalidate E session rowIds).2
      = renumber 0 (session.rows.filter (fun r => !rowIds.contains r.rowId)) := rfl
  have h1 : (removeAndRevalidate E session rowIds).1
      = revalidate E (removeRows session rowIds).1 (removeAndRevalidate E session rowIds).2
          (removeRows session rowIds).1.overrides none := rfl
  obtain ⟨et, he, hd⟩ := revalidate_errors_dups E (removeRows session rowIds).1
    (removeAndRevalidate E session rowIds).2 (removeRows session rowIds).1.overrides none
  have hbound : ∀ r ∈ (removeAndRevalidate E session rowIds).2,
      0 ≤ r.rowId ∧ r.rowId < ((removeAndRevalidate E session rowIds).2.length : ℤ) := by
    intro r hr
    rw [h2] at hr
    have hb := renumber_mem_bounds hr
    rw [h2, renumber_length]
    push_cast at hb ⊢
    omega
  constructor
  · intro e he2
    rw [h1, he] at he2
    obtain ⟨r, hr, heq⟩ := validateRows_error_rowId E _ et e he2
    rw [heq]
    exact hbound r hr
  · intro g hg rid hrid
    rw [h1, hd, validateRows_snd] at hg
    obtain ⟨r, hr, heq⟩ := dup_group_rowIds _ _ hg rid hrid
    rw [heq]
    exact hbound r hr

/-- Witness for C8: on the two-row sample session with nothing removed,
the stored error for row 0 references a row below the new row count. -/
theorem claim_C8_witness :
    (⟨0, "Age", "integer", Value.str "abc",
      "Expected integer, received " ++ sq ++ "abc" ++ sq⟩ : CellError)
      ∈ (removeAndRevalidate extNone sampleSession []).1.errors
    ∧ 0 ≤ (0 : ℤ) ∧ (0 : ℤ) < ((removeAndRevalidate extNone sampleSession []).2.length : ℤ) :=
  ⟨by decide, (claim_C8 extNone sampleSession []).1
    ⟨0, "Age", "integer", Value.str "abc",
      "Expected integer, received " ++ sq ++ "abc" ++ sq⟩ (by decide)⟩

end ExcelValidator
